import Mathlib

/-!
Shallow embedding of the `invoker` task orchestrator (Go package `invoker`).

The orchestrator `Tasks` is a small state machine protected by one mutex:
every mutation of `mode`, `pending`, `running`, `first`, `err` and the
one-shot `done` channel happens under that lock, so the concurrent program
is faithfully modelled as a sequential transition system whose steps are
the lock-protected critical sections:

  - `startStep`  models the locked prefix of `Tasks.do` (mode admission,
    taking `pending`, appending the synthetic `Wait` task for Repeat,
    initialising the lifetime state, and the `len(tasks) > 0` check that
    decides between launching and `ErrNoTasks`);
  - `add`        models `Tasks.Add`;
  - `report`     models `Tasks.report` (one call per task completion);
  - `runTask`    models the panic barrier of `Tasks.run`.

The `done` channel of capacity 1 is modelled by `doneWrites`, the list of
values sent on it (in order); the derived cancellation context is modelled
by the flag `ctxCanceled` (`cancel()` is idempotent, so a `Bool` suffices).
Go `error` values are modelled as `Option ε` with `none` for `nil`
(success) and `some e` for a failure payload; `τ` is the type of
user-supplied task identities.
-/

namespace Invoker

/-- The `mode` enumeration of the Go source (`modeInit`, `modeRun`,
`modeRace`, `modeRepeat`, `modeDone`). -/
inductive Mode : Type
  | modeInit
  | modeRun
  | modeRace
  | modeRepeat
  | modeDone
deriving DecidableEq

/-- A task held by the orchestrator: either a user task or the synthetic
`Wait` task that `do` appends in Repeat mode. -/
inductive TaskItem (τ : Type) : Type
  | user (t : τ)
  | waitTask
deriving DecidableEq

/-- The lock-protected state of the Go struct `Tasks`.  `doneWrites` is the
history of sends on the `done` channel; `ctxCanceled` records whether
`cancel()` has been invoked on the derived context. -/
structure Tasks (τ ε : Type) : Type where
  mode : Mode
  pending : List (TaskItem τ)
  running : Int
  first : Bool
  err : Option ε
  ctxCanceled : Bool
  doneWrites : List (Option ε)
deriving DecidableEq

/-- `New(tasks...)`: a zero-valued struct with `pending` set. -/
def newTasks {τ ε : Type} (xs : List τ) : Tasks τ ε :=
  { mode := Mode.modeInit
    pending := xs.map TaskItem.user
    running := 0
    first := false
    err := none
    ctxCanceled := false
    doneWrites := [] }

/-- Outcome of the admission routine `do`: one of the three start-time
errors, or the list of tasks launched (each on its own goroutine, the
first in the caller's). -/
inductive StartResult (τ : Type) : Type
  | errFinished
  | errRunning
  | errNoTasks
  | launched (tasks : List (TaskItem τ))
deriving DecidableEq

/-- The lifetime-state assignments of `Tasks.do(ctx, m)`: `pending` taken,
`mode = m`, fresh derived context (not cancelled), fresh `done` channel,
`first = true`, `running = len(tasks)`. -/
def startState {τ ε : Type} (ts : Tasks τ ε) (m : Mode)
    (tasks : List (TaskItem τ)) : Tasks τ ε :=
  { ts with
    pending := []
    mode := m
    first := true
    running := (tasks.length : Int)
    ctxCanceled := false
    doneWrites := [] }

/-- The locked prefix of `Tasks.do(ctx, m)` up to the launch / `ErrNoTasks`
decision.  Mirrors the source order: mode switch; take `pending`; append
`Wait` when `m == modeRepeat`; assign the lifetime state (`startState`);
then check `len(tasks) > 0`.  Note the lifetime fields are assigned before
that check. -/
def startStep {τ ε : Type} (ts : Tasks τ ε) (m : Mode) :
    StartResult τ × Tasks τ ε :=
  match ts.mode with
  | Mode.modeInit =>
      let tasks :=
        if m = Mode.modeRepeat then ts.pending ++ [TaskItem.waitTask]
        else ts.pending
      if 0 < tasks.length then (StartResult.launched tasks, startState ts m tasks)
      else (StartResult.errNoTasks, startState ts m tasks)
  | Mode.modeDone => (StartResult.errFinished, ts)
  | Mode.modeRun => (StartResult.errRunning, ts)
  | Mode.modeRace => (StartResult.errRunning, ts)
  | Mode.modeRepeat => (StartResult.errRunning, ts)

/-- `Tasks.Add(tasks...)`: in `modeInit` append to `pending` (launching
nothing); otherwise add `len(tasks)` to `running` and launch each against
the current derived context.  The second component is the list of tasks
launched by the call. -/
def add {τ ε : Type} (ts : Tasks τ ε) (xs : List τ) :
    Tasks τ ε × List (TaskItem τ) :=
  if ts.mode = Mode.modeInit then
    ({ ts with pending := ts.pending ++ xs.map TaskItem.user }, [])
  else
    ({ ts with running := ts.running + (xs.length : Int) }, xs.map TaskItem.user)

/-- The `modeRun, modeRepeat` arm of the switch in `Tasks.report`:
`if ts.err == nil { ts.err = err }; if err != nil { ts.cancel() }`. -/
def recordRun {τ ε : Type} (ts : Tasks τ ε) (e : Option ε) : Tasks τ ε :=
  { ts with
    err := if ts.err.isNone then e else ts.err
    ctxCanceled := if e.isSome then true else ts.ctxCanceled }

/-- The `modeRace` arm of the switch in `Tasks.report`:
`if ts.first { ts.err = err; ts.first = false }; ts.cancel()`. -/
def recordRace {τ ε : Type} (ts : Tasks τ ε) (e : Option ε) : Tasks τ ε :=
  { ts with
    err := if ts.first then e else ts.err
    first := if ts.first then false else ts.first
    ctxCanceled := true }

/-- The tail of `Tasks.report`: `if ts.running > 0 { return }` and then
`if ts.mode != modeRepeat || ts.err != nil { ts.done <- ts.err; ts.mode =
modeDone }`. -/
def finishCheck {τ ε : Type} (ts : Tasks τ ε) : Tasks τ ε :=
  if 0 < ts.running then ts
  else if ts.mode = Mode.modeRepeat ∧ ts.err.isNone then ts
  else { ts with doneWrites := ts.doneWrites ++ [ts.err], mode := Mode.modeDone }

/-- `Tasks.report(err)`: decrement `running`, dispatch on `mode` (the
`modeDone` arm returns before the completion check; `modeInit` matches no
arm and falls through to it), then run the completion check. -/
def report {τ ε : Type} (ts : Tasks τ ε) (e : Option ε) : Tasks τ ε :=
  match ts.mode with
  | Mode.modeDone => { ts with running := ts.running - 1 }
  | Mode.modeRun => finishCheck (recordRun { ts with running := ts.running - 1 } e)
  | Mode.modeRepeat => finishCheck (recordRun { ts with running := ts.running - 1 } e)
  | Mode.modeRace => finishCheck (recordRace { ts with running := ts.running - 1 } e)
  | Mode.modeInit => finishCheck { ts with running := ts.running - 1 }

/-- Apply a chronological sequence of `report` calls (reports are
serialised by the mutex, so an interleaving is exactly a list). -/
def reportAll {τ ε : Type} (ts : Tasks τ ε) (es : List (Option ε)) : Tasks τ ε :=
  es.foldl report ts

/-- The first failure in a chronological sequence of reported outcomes
(`none` when every outcome is a success). -/
def firstFailure {ε : Type} : List (Option ε) → Option ε
  | [] => none
  | none :: rest => firstFailure rest
  | some e :: _ => some e

/-- Initial value of the global flag `var Panic bool = false` (`false`
means faults are caught). -/
def PanicDefault : Bool := false

/-- What a task body does when invoked: return an outcome, or fault with a
payload (modelled as a `Nat`). -/
inductive TaskBehavior (ε : Type) : Type
  | returns (e : Option ε)
  | panics (p : Nat)
deriving DecidableEq

/-- An error as seen by `report`: a user error, or `ErrPanic` carrying the
fault payload and the stack snapshot taken by `debug.Stack()`. -/
inductive RunErr (ε : Type) : Type
  | user (e : ε)
  | errPanic (p : Nat) (stack : List Nat)
deriving DecidableEq

/-- Result of one execution of `Tasks.run`: `reported` is the value of the
single `ts.report(err)` call made by the deferred function (which runs on
every path, normal return or unwinding), and `propagated` is the payload
of a fault that continues to propagate after that call. -/
structure RunResult (ε : Type) : Type where
  reported : Option (RunErr ε)
  propagated : Option Nat
deriving DecidableEq

/-- `Tasks.run(ctx, t)` as a function of the task's behaviour, the global
flag and the stack snapshot the runtime would produce at recovery time.
With the flag `false` a fault is recovered and reported as `ErrPanic`;
with the flag `true` `recover` is not called, so the deferred function
reports the zero-valued `err` (`nil`) and the fault keeps unwinding. -/
def runTask {ε : Type} (panicFlag : Bool) (stack : List Nat)
    (b : TaskBehavior ε) : RunResult ε :=
  match b with
  | TaskBehavior.returns e => ⟨e.map RunErr.user, none⟩
  | TaskBehavior.panics p =>
      if panicFlag then ⟨none, some p⟩
      else ⟨some (RunErr.errPanic p stack), none⟩

section StepLemmas

variable {τ ε : Type}

theorem finishCheck_running (ts : Tasks τ ε) : (finishCheck ts).running = ts.running := by
  unfold finishCheck
  split
  · rfl
  · split
    · rfl
    · rfl

theorem finishCheck_err (ts : Tasks τ ε) : (finishCheck ts).err = ts.err := by
  unfold finishCheck
  split
  · rfl
  · split
    · rfl
    · rfl

theorem finishCheck_first (ts : Tasks τ ε) : (finishCheck ts).first = ts.first := by
  unfold finishCheck
  split
  · rfl
  · split
    · rfl
    · rfl

theorem finishCheck_ctxCanceled (ts : Tasks τ ε) :
    (finishCheck ts).ctxCanceled = ts.ctxCanceled := by
  unfold finishCheck
  split
  · rfl
  · split
    · rfl
    · rfl

theorem finishCheck_mode_or (ts : Tasks τ ε) :
    (finishCheck ts).mode = ts.mode ∨ (finishCheck ts).mode = Mode.modeDone := by
  unfold finishCheck
  split
  · exact Or.inl rfl
  · split
    · exact Or.inl rfl
    · exact Or.inr rfl

theorem finishCheck_of_pos (ts : Tasks τ ε) (h : 0 < ts.running) : finishCheck ts = ts := by
  unfold finishCheck
  rw [if_pos h]

theorem report_eq_done (ts : Tasks τ ε) (e : Option ε) (h : ts.mode = Mode.modeDone) :
    report ts e = { ts with running := ts.running - 1 } := by
  unfold report
  rw [h]

theorem report_eq_run (ts : Tasks τ ε) (e : Option ε) (h : ts.mode = Mode.modeRun) :
    report ts e = finishCheck (recordRun { ts with running := ts.running - 1 } e) := by
  unfold report
  rw [h]

theorem report_eq_repeat (ts : Tasks τ ε) (e : Option ε) (h : ts.mode = Mode.modeRepeat) :
    report ts e = finishCheck (recordRun { ts with running := ts.running - 1 } e) := by
  unfold report
  rw [h]

theorem report_eq_race (ts : Tasks τ ε) (e : Option ε) (h : ts.mode = Mode.modeRace) :
    report ts e = finishCheck (recordRace { ts with running := ts.running - 1 } e) := by
  unfold report
  rw [h]

theorem report_eq_init (ts : Tasks τ ε) (e : Option ε) (h : ts.mode = Mode.modeInit) :
    report ts e = finishCheck { ts with running := ts.running - 1 } := by
  unfold report
  rw [h]

theorem report_mode_or (ts : Tasks τ ε) (e : Option ε) :
    (report ts e).mode = ts.mode ∨ (report ts e).mode = Mode.modeDone := by
  cases h : ts.mode
  · rw [report_eq_init ts e h]
    rcases finishCheck_mode_or { ts with running := ts.running - 1 } with h2 | h2
    · exact Or.inl (h2.trans h)
    · exact Or.inr h2
  · rw [report_eq_run ts e h]
    rcases finishCheck_mode_or (recordRun { ts with running := ts.running - 1 } e) with h2 | h2
    · exact Or.inl (h2.trans h)
    · exact Or.inr h2
  · rw [report_eq_race ts e h]
    rcases finishCheck_mode_or (recordRace { ts with running := ts.running - 1 } e) with h2 | h2
    · exact Or.inl (h2.trans h)
    · exact Or.inr h2
  · rw [report_eq_repeat ts e h]
    rcases finishCheck_mode_or (recordRun { ts with running := ts.running - 1 } e) with h2 | h2
    · exact Or.inl (h2.trans h)
    · exact Or.inr h2
  · rw [report_eq_done ts e h]
    exact Or.inr h

theorem finishCheck_of_skip (ts : Tasks τ ε) (h1 : ¬ 0 < ts.running)
    (h2 : ts.mode = Mode.modeRepeat ∧ ts.err.isNone) : finishCheck ts = ts := by
  unfold finishCheck
  rw [if_neg h1, if_pos h2]

theorem finishCheck_of_write (ts : Tasks τ ε) (h1 : ¬ 0 < ts.running)
    (h2 : ¬(ts.mode = Mode.modeRepeat ∧ ts.err.isNone)) :
    finishCheck ts =
      { ts with doneWrites := ts.doneWrites ++ [ts.err], mode := Mode.modeDone } := by
  unfold finishCheck
  rw [if_neg h1, if_neg h2]

theorem recordRun_err (ts : Tasks τ ε) (e : Option ε) :
    (recordRun ts e).err = if ts.err.isNone then e else ts.err := rfl

theorem recordRace_err (ts : Tasks τ ε) (e : Option ε) :
    (recordRace ts e).err = if ts.first then e else ts.err := rfl

theorem firstFailure_singleton (e : Option ε) : firstFailure [e] = e := by
  cases e <;> rfl

theorem reportAll_nil (ts : Tasks τ ε) : reportAll ts [] = ts := rfl

theorem reportAll_cons (ts : Tasks τ ε) (e : Option ε) (es : List (Option ε)) :
    reportAll ts (e :: es) = reportAll (report ts e) es := rfl

/-- Once `mode == modeDone`, a report only decrements `running`; folding any
sequence of reports leaves every other field unchanged. -/
theorem reportAll_done (es : List (Option ε)) : ∀ ts : Tasks τ ε,
    ts.mode = Mode.modeDone →
    (reportAll ts es).mode = Mode.modeDone ∧
    (reportAll ts es).doneWrites = ts.doneWrites ∧
    (reportAll ts es).err = ts.err ∧
    (reportAll ts es).first = ts.first := by
  induction es with
  | nil => exact fun ts h => ⟨h, rfl, rfl, rfl⟩
  | cons e rest ih =>
    intro ts h
    rw [reportAll_cons, report_eq_done ts e h]
    exact ih { ts with running := ts.running - 1 } h

/-- Folding the reports of a Run lifetime: starting from a `modeRun` state
whose `running` equals the number of reports, the final recorded error is
the first failure (unless one was already recorded), it is delivered on the
`done` channel, and the mode ends at `modeDone`. -/
theorem reportAll_run (es : List (Option ε)) : ∀ ts : Tasks τ ε,
    ts.mode = Mode.modeRun → ts.running = (es.length : Int) → es ≠ [] →
    (reportAll ts es).err = (if ts.err.isNone then firstFailure es else ts.err) ∧
    (reportAll ts es).doneWrites =
      ts.doneWrites ++ [if ts.err.isNone then firstFailure es else ts.err] ∧
    (reportAll ts es).mode = Mode.modeDone := by
  induction es with
  | nil => exact fun ts _ _ hne => absurd rfl hne
  | cons e rest ih =>
    intro ts hm hr _
    rw [reportAll_cons, report_eq_run ts e hm]
    rcases List.eq_nil_or_concat' rest with hrest | hx
    · subst hrest
      have hr0 : ts.running - 1 = 0 := by
        rw [hr]; simp
      have h1 : ¬ 0 < (recordRun { ts with running := ts.running - 1 } e).running := by
        show ¬ 0 < ts.running - 1
        rw [hr0]; omega
      have h2 : ¬((recordRun { ts with running := ts.running - 1 } e).mode =
          Mode.modeRepeat ∧
          ((recordRun { ts with running := ts.running - 1 } e).err).isNone) := by
        intro hc
        have : ts.mode = Mode.modeRepeat := hc.1
        rw [hm] at this
        exact Mode.noConfusion this
      rw [finishCheck_of_write _ h1 h2, reportAll_nil]
      refine ⟨?_, ?_, rfl⟩
      · rw [firstFailure_singleton]
        rfl
      · rw [firstFailure_singleton]
        rfl
    · have hrest : rest ≠ [] := by
        rcases hx with ⟨ys, y, hy⟩
        subst hy
        simp
      have hpos : 0 < (recordRun { ts with running := ts.running - 1 } e).running := by
        show 0 < ts.running - 1
        rw [hr]
        have : rest.length ≠ 0 := fun h0 => hrest (List.eq_nil_of_length_eq_zero h0)
        simp only [List.length_cons]
        omega
      rw [finishCheck_of_pos _ hpos]
      have hm2 : (recordRun { ts with running := ts.running - 1 } e).mode = Mode.modeRun := hm
      have hr2 : (recordRun { ts with running := ts.running - 1 } e).running =
          (rest.length : Int) := by
        show ts.running - 1 = (rest.length : Int)
        rw [hr]
        simp only [List.length_cons]
        push_cast
        ring
      obtain ⟨ih1, ih2, ih3⟩ := ih (recordRun { ts with running := ts.running - 1 } e) hm2 hr2 hrest
      refine ⟨?_, ?_, ih3⟩
      · rw [ih1, recordRun_err]
        show (if (if ts.err.isNone then e else ts.err).isNone then firstFailure rest
              else if ts.err.isNone then e else ts.err) =
            if ts.err.isNone then firstFailure (e :: rest) else ts.err
        cases hE : ts.err with
        | some x => simp
        | none => cases e <;> simp [firstFailure]
      · rw [ih2, recordRun_err]
        show ts.doneWrites ++ [if (if ts.err.isNone then e else ts.err).isNone
              then firstFailure rest else if ts.err.isNone then e else ts.err] =
            ts.doneWrites ++ [if ts.err.isNone then firstFailure (e :: rest) else ts.err]
        cases hE : ts.err with
        | some x => simp
        | none => cases e <;> simp [firstFailure]

theorem recordRace_first (ts : Tasks τ ε) (e : Option ε) :
    (recordRace ts e).first = false := by
  cases h : ts.first <;> simp [recordRace, h]

/-- Folding reports of a Race lifetime after the first report has already
happened (`first = false`): the recorded result never changes and is the
value eventually delivered. -/
theorem reportAll_race_tail (es : List (Option ε)) : ∀ ts : Tasks τ ε,
    ts.mode = Mode.modeRace → ts.first = false → ts.running = (es.length : Int) →
    es ≠ [] →
    (reportAll ts es).err = ts.err ∧
    (reportAll ts es).doneWrites = ts.doneWrites ++ [ts.err] ∧
    (reportAll ts es).mode = Mode.modeDone ∧
    (reportAll ts es).ctxCanceled = true := by
  induction es with
  | nil => exact fun ts _ _ _ hne => absurd rfl hne
  | cons e rest ih =>
    intro ts hm hf hr _
    rw [reportAll_cons, report_eq_race ts e hm]
    have herr : (recordRace { ts with running := ts.running - 1 } e).err = ts.err := by
      rw [recordRace_err]
      show (if ts.first then e else ts.err) = ts.err
      rw [hf]
      rfl
    rcases List.eq_nil_or_concat' rest with hrest | hx
    · subst hrest
      have h1 : ¬ 0 < (recordRace { ts with running := ts.running - 1 } e).running := by
        show ¬ 0 < ts.running - 1
        rw [hr]; simp
      have h2 : ¬((recordRace { ts with running := ts.running - 1 } e).mode =
          Mode.modeRepeat ∧
          ((recordRace { ts with running := ts.running - 1 } e).err).isNone) := by
        intro hc
        have hc1 : ts.mode = Mode.modeRepeat := hc.1
        rw [hm] at hc1
        exact Mode.noConfusion hc1
      rw [finishCheck_of_write _ h1 h2, reportAll_nil]
      exact ⟨herr, by rw [herr]; rfl, rfl, rfl⟩
    · have hrest : rest ≠ [] := by
        rcases hx with ⟨ys, y, hy⟩
        subst hy
        simp
      have hpos : 0 < (recordRace { ts with running := ts.running - 1 } e).running := by
        show 0 < ts.running - 1
        rw [hr]
        have : rest.length ≠ 0 := fun h0 => hrest (List.eq_nil_of_length_eq_zero h0)
        simp only [List.length_cons]
        omega
      rw [finishCheck_of_pos _ hpos]
      have hr2 : (recordRace { ts with running := ts.running - 1 } e).running =
          (rest.length : Int) := by
        show ts.running - 1 = (rest.length : Int)
        rw [hr]
        simp only [List.length_cons]
        push_cast
        ring
      obtain ⟨ih1, ih2, ih3, ih4⟩ :=
        ih (recordRace { ts with running := ts.running - 1 } e) hm
          (recordRace_first _ e) hr2 hrest
      rw [herr] at ih1 ih2
      exact ⟨ih1, ih2, ih3, ih4⟩

/-- Folding the reports of a Race lifetime from the start (`first = true`):
the first reported outcome is recorded, delivered on the `done` channel,
cancellation is triggered, and the mode ends at `modeDone`. -/
theorem reportAll_race (e : Option ε) (rest : List (Option ε)) (ts : Tasks τ ε)
    (hm : ts.mode = Mode.modeRace) (hf : ts.first = true)
    (hr : ts.running = ((e :: rest).length : Int)) :
    (reportAll ts (e :: rest)).err = e ∧
    (reportAll ts (e :: rest)).doneWrites = ts.doneWrites ++ [e] ∧
    (reportAll ts (e :: rest)).mode = Mode.modeDone ∧
    (reportAll ts (e :: rest)).ctxCanceled = true := by
  rw [reportAll_cons, report_eq_race ts e hm]
  have herr : (recordRace { ts with running := ts.running - 1 } e).err = e := by
    rw [recordRace_err]
    show (if ts.first then e else ts.err) = e
    rw [hf]
    rfl
  rcases List.eq_nil_or_concat' rest with hrest | hx
  · subst hrest
    have h1 : ¬ 0 < (recordRace { ts with running := ts.running - 1 } e).running := by
      show ¬ 0 < ts.running - 1
      rw [hr]; simp
    have h2 : ¬((recordRace { ts with running := ts.running - 1 } e).mode =
        Mode.modeRepeat ∧
        ((recordRace { ts with running := ts.running - 1 } e).err).isNone) := by
      intro hc
      have hc1 : ts.mode = Mode.modeRepeat := hc.1
      rw [hm] at hc1
      exact Mode.noConfusion hc1
    rw [finishCheck_of_write _ h1 h2, reportAll_nil]
    exact ⟨herr, by rw [herr]; rfl, rfl, rfl⟩
  · have hrest : rest ≠ [] := by
      rcases hx with ⟨ys, y, hy⟩
      subst hy
      simp
    have hpos : 0 < (recordRace { ts with running := ts.running - 1 } e).running := by
      show 0 < ts.running - 1
      rw [hr]
      have : rest.length ≠ 0 := fun h0 => hrest (List.eq_nil_of_length_eq_zero h0)
      simp only [List.length_cons]
      omega
    rw [finishCheck_of_pos _ hpos]
    have hr2 : (recordRace { ts with running := ts.running - 1 } e).running =
        (rest.length : Int) := by
      show ts.running - 1 = (rest.length : Int)
      rw [hr]
      simp only [List.length_cons]
      push_cast
      ring
    obtain ⟨ih1, ih2, ih3, ih4⟩ :=
      reportAll_race_tail rest (recordRace { ts with running := ts.running - 1 } e) hm
        (recordRace_first _ e) hr2 hrest
    rw [herr] at ih1 ih2
    exact ⟨ih1, ih2, ih3, ih4⟩

/-- Folding the reports of a Repeat lifetime: the recorded error is the
first failure; it is delivered (and the mode closes) exactly when it is a
failure, while an all-success drain leaves the orchestration open in
`modeRepeat` with `running = 0` and nothing delivered. -/
theorem reportAll_repeat (es : List (Option ε)) : ∀ ts : Tasks τ ε,
    ts.mode = Mode.modeRepeat → ts.running = (es.length : Int) → es ≠ [] →
    (reportAll ts es).err = (if ts.err.isNone then firstFailure es else ts.err) ∧
    ((if ts.err.isNone then firstFailure es else ts.err).isSome →
      (reportAll ts es).doneWrites =
        ts.doneWrites ++ [if ts.err.isNone then firstFailure es else ts.err] ∧
      (reportAll ts es).mode = Mode.modeDone) ∧
    ((if ts.err.isNone then firstFailure es else ts.err) = none →
      (reportAll ts es).doneWrites = ts.doneWrites ∧
      (reportAll ts es).mode = Mode.modeRepeat ∧
      (reportAll ts es).running = 0) := by
  induction es with
  | nil => exact fun ts _ _ hne => absurd rfl hne
  | cons e rest ih =>
    intro ts hm hr _
    rw [reportAll_cons, report_eq_repeat ts e hm]
    rcases List.eq_nil_or_concat' rest with hrest | hx
    · subst hrest
      rw [firstFailure_singleton]
      have hr0 : ¬ 0 < (recordRun { ts with running := ts.running - 1 } e).running := by
        show ¬ 0 < ts.running - 1
        rw [hr]; simp
      by_cases hE : (if ts.err.isNone then e else ts.err).isNone
      · have hskip : (recordRun { ts with running := ts.running - 1 } e).mode =
            Mode.modeRepeat ∧
            ((recordRun { ts with running := ts.running - 1 } e).err).isNone :=
          ⟨hm, hE⟩
        rw [finishCheck_of_skip _ hr0 hskip, reportAll_nil]
        refine ⟨rfl, ?_, ?_⟩
        · intro hs
          rw [Option.isNone_iff_eq_none] at hE
          rw [hE] at hs
          exact Bool.noConfusion hs
        · intro _
          refine ⟨rfl, hm, ?_⟩
          show ts.running - 1 = 0
          rw [hr]; simp
      · have hw : ¬((recordRun { ts with running := ts.running - 1 } e).mode =
            Mode.modeRepeat ∧
            ((recordRun { ts with running := ts.running - 1 } e).err).isNone) :=
          fun hc => hE hc.2
        rw [finishCheck_of_write _ hr0 hw, reportAll_nil]
        refine ⟨rfl, fun _ => ⟨rfl, rfl⟩, fun hn => ?_⟩
        rw [hn] at hE
        exact absurd rfl hE
    · have hrest : rest ≠ [] := by
        rcases hx with ⟨ys, y, hy⟩
        subst hy
        simp
      have hpos : 0 < (recordRun { ts with running := ts.running - 1 } e).running := by
        show 0 < ts.running - 1
        rw [hr]
        have : rest.length ≠ 0 := fun h0 => hrest (List.eq_nil_of_length_eq_zero h0)
        simp only [List.length_cons]
        omega
      rw [finishCheck_of_pos _ hpos]
      have hm2 : (recordRun { ts with running := ts.running - 1 } e).mode =
          Mode.modeRepeat := hm
      have hr2 : (recordRun { ts with running := ts.running - 1 } e).running =
          (rest.length : Int) := by
        show ts.running - 1 = (rest.length : Int)
        rw [hr]
        simp only [List.length_cons]
        push_cast
        ring
      obtain ⟨ih1, ih2, ih3⟩ :=
        ih (recordRun { ts with running := ts.running - 1 } e) hm2 hr2 hrest
      have hEeq : (if ((recordRun { ts with running := ts.running - 1 } e).err).isNone
            then firstFailure rest
            else (recordRun { ts with running := ts.running - 1 } e).err) =
          (if ts.err.isNone then firstFailure (e :: rest) else ts.err) := by
        rw [recordRun_err]
        show (if (if ts.err.isNone then e else ts.err).isNone then firstFailure rest
              else if ts.err.isNone then e else ts.err) =
            if ts.err.isNone then firstFailure (e :: rest) else ts.err
        cases hE : ts.err with
        | some x => simp
        | none => cases e <;> simp [firstFailure]
      rw [hEeq] at ih1 ih2 ih3
      exact ⟨ih1, ih2, ih3⟩

/-- Either the pre-state mode is `modeDone` and `report` only decrements
`running`, or `report` is `finishCheck` applied to an intermediate state
with the same mode and channel history and the decremented count. -/
theorem report_shape (ts : Tasks τ ε) (e : Option ε) :
    (ts.mode = Mode.modeDone ∧ report ts e = { ts with running := ts.running - 1 }) ∨
    (ts.mode ≠ Mode.modeDone ∧ ∃ s : Tasks τ ε,
      s.mode = ts.mode ∧ s.doneWrites = ts.doneWrites ∧
      s.running = ts.running - 1 ∧ report ts e = finishCheck s) := by
  cases hm : ts.mode
  · exact Or.inr ⟨fun hc => Mode.noConfusion hc,
      { ts with running := ts.running - 1 }, hm, rfl, rfl, report_eq_init ts e hm⟩
  · exact Or.inr ⟨fun hc => Mode.noConfusion hc,
      recordRun { ts with running := ts.running - 1 } e, hm, rfl, rfl,
      report_eq_run ts e hm⟩
  · exact Or.inr ⟨fun hc => Mode.noConfusion hc,
      recordRace { ts with running := ts.running - 1 } e, hm, rfl, rfl,
      report_eq_race ts e hm⟩
  · exact Or.inr ⟨fun hc => Mode.noConfusion hc,
      recordRun { ts with running := ts.running - 1 } e, hm, rfl, rfl,
      report_eq_repeat ts e hm⟩
  · exact Or.inl ⟨rfl, by rw [report_eq_done ts e hm, hm]⟩

/-- One report step: either the `done` channel is untouched, or exactly one
value (the recorded error at write time) is appended, and in that case the
pre-state mode was not `modeDone`, the post-state mode is `modeDone`, the
decremented outstanding count is at `0` (or below), and in Repeat mode the
written value is a failure. -/
theorem report_write_cases (ts : Tasks τ ε) (e : Option ε) :
    ((report ts e).doneWrites = ts.doneWrites ∧ (report ts e).mode = ts.mode) ∨
    ((report ts e).doneWrites = ts.doneWrites ++ [(report ts e).err] ∧
      ts.mode ≠ Mode.modeDone ∧
      (report ts e).mode = Mode.modeDone ∧
      ts.running - 1 ≤ 0 ∧
      (ts.mode = Mode.modeRepeat → ((report ts e).err).isSome)) := by
  rcases report_shape ts e with ⟨hmd, heq⟩ | ⟨hnd, s, hsm, hsd, hsr, heq⟩
  · rw [heq]
    exact Or.inl ⟨rfl, rfl⟩
  · rw [heq]
    by_cases hp : 0 < s.running
    · rw [finishCheck_of_pos s hp]
      exact Or.inl ⟨hsd, hsm⟩
    · by_cases hskip : s.mode = Mode.modeRepeat ∧ s.err.isNone
      · rw [finishCheck_of_skip s hp hskip]
        exact Or.inl ⟨hsd, hsm⟩
      · rw [finishCheck_of_write s hp hskip]
        refine Or.inr ⟨by rw [hsd], hnd, rfl, ?_, ?_⟩
        · rw [hsr] at hp
          omega
        · intro hrep
          rw [hrep] at hsm
          show s.err.isSome
          cases hv : s.err with
          | none => exact absurd ⟨hsm, by rw [hv]; rfl⟩ hskip
          | some y => rfl

/-- Folding any report sequence writes the `done` channel at most once:
from a state where nothing has been written, the final history is empty or
a single value written in a step that also closed the mode. -/
theorem reportAll_at_most_once (es : List (Option ε)) : ∀ ts : Tasks τ ε,
    (ts.doneWrites = [] ∨ (ts.doneWrites.length = 1 ∧ ts.mode = Mode.modeDone)) →
    ((reportAll ts es).doneWrites = [] ∨
      ((reportAll ts es).doneWrites.length = 1 ∧
        (reportAll ts es).mode = Mode.modeDone)) := by
  induction es with
  | nil => exact fun ts h => h
  | cons e rest ih =>
    intro ts h
    rw [reportAll_cons]
    apply ih
    rcases h with h0 | ⟨h1, hd⟩
    · rcases report_write_cases ts e with ⟨hw, _⟩ | ⟨hw, _, hmd, _, _⟩
      · rw [hw, h0]
        exact Or.inl rfl
      · rw [hw, h0]
        exact Or.inr ⟨rfl, hmd⟩
    · rw [report_eq_done ts e hd]
      exact Or.inr ⟨h1, hd⟩

/-- In a Repeat (or already finished) lifetime, every value ever written to
the `done` channel is a failure. -/
theorem reportAll_repeat_writes_failures (es : List (Option ε)) : ∀ ts : Tasks τ ε,
    (ts.mode = Mode.modeRepeat ∨ ts.mode = Mode.modeDone) →
    (∀ v ∈ ts.doneWrites, v.isSome) →
    ∀ v ∈ (reportAll ts es).doneWrites, v.isSome := by
  induction es with
  | nil => exact fun ts _ h => h
  | cons e rest ih =>
    intro ts hmode hall
    rw [reportAll_cons]
    apply ih
    · rcases report_mode_or ts e with h | h
      · rw [h]
        exact hmode
      · exact Or.inr h
    · rcases report_write_cases ts e with ⟨hw, _⟩ | ⟨hw, hnd, _, _, hrep⟩
      · rw [hw]
        exact hall
      · rw [hw]
        intro v hv
        rcases List.mem_append.mp hv with hv1 | hv2
        · exact hall v hv1
        · rcases hmode with hr | hd
          · rw [List.mem_singleton.mp hv2]
            exact hrep hr
          · exact absurd hd hnd

/-- A recorded failure is never overwritten by later reports, provided the
state is not a race state still waiting for its first report (in reachable
states `first = true` implies nothing has been recorded yet). -/
theorem reportAll_err_stable (es : List (Option ε)) : ∀ (ts : Tasks τ ε) (x : ε),
    ts.err = some x → (ts.first = true → ts.mode ≠ Mode.modeRace) →
    (reportAll ts es).err = some x := by
  induction es with
  | nil => exact fun ts x hx _ => hx
  | cons e rest ih =>
    intro ts x hx hfr
    rw [reportAll_cons]
    have hrecRun : (recordRun { ts with running := ts.running - 1 } e).err = some x := by
      rw [recordRun_err]
      show (if ts.err.isNone then e else ts.err) = some x
      rw [hx]
      simp
    cases hm : ts.mode
    · rw [report_eq_init ts e hm]
      refine ih _ x (by rw [finishCheck_err]; exact hx) ?_
      intro _ hc
      rcases finishCheck_mode_or ({ ts with running := ts.running - 1 } : Tasks τ ε) with h2 | h2
      · rw [hc] at h2
        have : ts.mode = Mode.modeRace := h2.symm
        rw [hm] at this
        exact Mode.noConfusion this
      · rw [hc] at h2
        exact Mode.noConfusion h2
    · rw [report_eq_run ts e hm]
      refine ih _ x (by rw [finishCheck_err]; exact hrecRun) ?_
      intro _ hc
      rcases finishCheck_mode_or (recordRun { ts with running := ts.running - 1 } e) with h2 | h2
      · rw [hc] at h2
        have : ts.mode = Mode.modeRace := h2.symm
        rw [hm] at this
        exact Mode.noConfusion this
      · rw [hc] at h2
        exact Mode.noConfusion h2
    · have hff : ts.first = false := by
        cases hf : ts.first
        · rfl
        · exact absurd hm (hfr hf)
      rw [report_eq_race ts e hm]
      have hrec : (recordRace { ts with running := ts.running - 1 } e).err = some x := by
        rw [recordRace_err]
        show (if ts.first then e else ts.err) = some x
        rw [hff]
        simpa using hx
      refine ih _ x (by rw [finishCheck_err]; exact hrec) ?_
      intro hf1 _
      rw [finishCheck_first] at hf1
      rw [recordRace_first] at hf1
      exact Bool.noConfusion hf1
    · rw [report_eq_repeat ts e hm]
      refine ih _ x (by rw [finishCheck_err]; exact hrecRun) ?_
      intro _ hc
      rcases finishCheck_mode_or (recordRun { ts with running := ts.running - 1 } e) with h2 | h2
      · rw [hc] at h2
        have : ts.mode = Mode.modeRace := h2.symm
        rw [hm] at this
        exact Mode.noConfusion this
      · rw [hc] at h2
        exact Mode.noConfusion h2
    · rw [report_eq_done ts e hm]
      refine ih _ x hx ?_
      intro _ hc
      have : ts.mode = Mode.modeRace := hc
      rw [hm] at this
      exact Mode.noConfusion this

theorem firstFailure_of_all_none (es : List (Option ε)) (h : ∀ v ∈ es, v = none) :
    firstFailure es = none := by
  induction es with
  | nil => rfl
  | cons v rest ih =>
    have hv : v = none := h v (List.mem_cons_self v rest)
    subst hv
    exact ih fun w hw => h w (List.mem_cons_of_mem _ hw)

theorem firstFailure_isSome_of_mem (es : List (Option ε)) (v : Option ε)
    (hv : v ∈ es) (hs : v.isSome) : (firstFailure es).isSome := by
  induction es with
  | nil => exact absurd hv (List.not_mem_nil v)
  | cons w rest ih =>
    cases w with
    | some x => rfl
    | none =>
        rcases List.mem_cons.mp hv with h1 | h2
        · rw [h1] at hs
          exact Bool.noConfusion hs
        · exact ih h2

theorem startStep_eq_of_run (ts : Tasks τ ε) (m2 : Mode) (h : ts.mode = Mode.modeRun) :
    startStep ts m2 = (StartResult.errRunning, ts) := by
  unfold startStep
  rw [h]

theorem startStep_eq_of_race (ts : Tasks τ ε) (m2 : Mode) (h : ts.mode = Mode.modeRace) :
    startStep ts m2 = (StartResult.errRunning, ts) := by
  unfold startStep
  rw [h]

theorem startStep_eq_of_repeat (ts : Tasks τ ε) (m2 : Mode)
    (h : ts.mode = Mode.modeRepeat) : startStep ts m2 = (StartResult.errRunning, ts) := by
  unfold startStep
  rw [h]

theorem startStep_eq_of_done (ts : Tasks τ ε) (m2 : Mode) (h : ts.mode = Mode.modeDone) :
    startStep ts m2 = (StartResult.errFinished, ts) := by
  unfold startStep
  rw [h]

theorem startStep_init_repeat (ts : Tasks τ ε) (h : ts.mode = Mode.modeInit) :
    startStep ts Mode.modeRepeat =
      (StartResult.launched (ts.pending ++ [TaskItem.waitTask]),
       startState ts Mode.modeRepeat (ts.pending ++ [TaskItem.waitTask])) := by
  unfold startStep
  rw [h]
  have hp : 0 < (ts.pending ++ [TaskItem.waitTask]).length := by simp
  simp [hp]

theorem startStep_init_other_launch (ts : Tasks τ ε) (m : Mode)
    (h : ts.mode = Mode.modeInit) (hm : m ≠ Mode.modeRepeat) (hne : ts.pending ≠ []) :
    startStep ts m = (StartResult.launched ts.pending, startState ts m ts.pending) := by
  unfold startStep
  rw [h]
  have hp : 0 < ts.pending.length := List.length_pos.mpr hne
  simp [hm, hp]

theorem startStep_init_other_empty (ts : Tasks τ ε) (m : Mode)
    (h : ts.mode = Mode.modeInit) (hm : m ≠ Mode.modeRepeat) (hemp : ts.pending = []) :
    startStep ts m = (StartResult.errNoTasks, startState ts m []) := by
  unfold startStep
  rw [h]
  simp [hm, hemp]

theorem add_fst_mode (ts : Tasks τ ε) (xs : List τ) : (add ts xs).1.mode = ts.mode := by
  unfold add
  split
  · rfl
  · rfl

end StepLemmas

/-- C5: with the pending set taken at start empty, `Run` and `Race` fail
with `ErrNoTasks` (and they fail with it only then), while `Repeat` never
fails with `ErrNoTasks` — its synthetic wait task makes the task set
non-empty, so an empty pending set still launches `[waitTask]`. -/
theorem noTasks_run_race_only (τ ε : Type) (ts : Tasks τ ε)
    (hm : ts.mode = Mode.modeInit) :
    ((startStep ts Mode.modeRun).1 = StartResult.errNoTasks ↔ ts.pending = []) ∧
    ((startStep ts Mode.modeRace).1 = StartResult.errNoTasks ↔ ts.pending = []) ∧
    (startStep ts Mode.modeRepeat).1 ≠ StartResult.errNoTasks ∧
    (ts.pending = [] →
      (startStep ts Mode.modeRepeat).1 = StartResult.launched [TaskItem.waitTask]) := by
  have hrun : Mode.modeRun ≠ Mode.modeRepeat := fun hc => Mode.noConfusion hc
  have hrace : Mode.modeRace ≠ Mode.modeRepeat := fun hc => Mode.noConfusion hc
  refine ⟨?_, ?_, ?_, ?_⟩
  · by_cases hp : ts.pending = []
    · rw [startStep_init_other_empty ts Mode.modeRun hm hrun hp]
      exact ⟨fun _ => hp, fun _ => rfl⟩
    · rw [startStep_init_other_launch ts Mode.modeRun hm hrun hp]
      exact ⟨fun hc => StartResult.noConfusion hc, fun hc => absurd hc hp⟩
  · by_cases hp : ts.pending = []
    · rw [startStep_init_other_empty ts Mode.modeRace hm hrace hp]
      exact ⟨fun _ => hp, fun _ => rfl⟩
    · rw [startStep_init_other_launch ts Mode.modeRace hm hrace hp]
      exact ⟨fun hc => StartResult.noConfusion hc, fun hc => absurd hc hp⟩
  · rw [startStep_init_repeat ts hm]
    exact fun hc => StartResult.noConfusion hc
  · intro hp
    rw [startStep_init_repeat ts hm, hp]
    rfl

/-- Witness for C5 at a concrete empty orchestrator. -/
theorem noTasks_run_race_only_witness :
    (startStep (newTasks ([] : List Nat) : Tasks Nat Nat) Mode.modeRun).1 =
      StartResult.errNoTasks ∧
    (startStep (newTasks ([] : List Nat) : Tasks Nat Nat) Mode.modeRace).1 =
      StartResult.errNoTasks ∧
    (startStep (newTasks ([] : List Nat) : Tasks Nat Nat) Mode.modeRepeat).1 =
      StartResult.launched [TaskItem.waitTask] := by
  have h := noTasks_run_race_only Nat Nat (newTasks []) rfl
  exact ⟨h.1.mpr rfl, h.2.1.mpr rfl, h.2.2.2 rfl⟩

/-- C6 (counterexample): a `Run` start on an empty orchestrator fails with
`ErrNoTasks` but does NOT leave the mode `Uninitialized` — `ts.mode = m`
is assigned before the `len(tasks) > 0` check — and a later start attempt
is rejected with `ErrRunning`. -/
theorem noTasks_poisons_cex :
    (startStep (newTasks ([] : List Nat) : Tasks Nat Nat) Mode.modeRun).1 =
      StartResult.errNoTasks ∧
    (startStep (newTasks ([] : List Nat) : Tasks Nat Nat) Mode.modeRun).2.mode =
      Mode.modeRun ∧
    ¬((startStep (newTasks ([] : List Nat) : Tasks Nat Nat) Mode.modeRun).2.mode =
      Mode.modeInit) ∧
    (startStep (startStep (newTasks ([] : List Nat) : Tasks Nat Nat) Mode.modeRun).2
      Mode.modeRun).1 = StartResult.errRunning := by
  decide

/-- C6 (amended): the `ErrNoTasks` failure is detected only after `mode`
and the lifetime state have been assigned, so a `Run`/`Race` start that
fails with `ErrNoTasks` leaves `mode` equal to the requested mode (with
`running = 0`), and every later start attempt fails with `ErrRunning`. -/
theorem noTasks_start_poisons (τ ε : Type) (ts : Tasks τ ε) (m : Mode)
    (hm : ts.mode = Mode.modeInit) (hp : ts.pending = [])
    (hrr : m = Mode.modeRun ∨ m = Mode.modeRace) :
    (startStep ts m).1 = StartResult.errNoTasks ∧
    (startStep ts m).2.mode = m ∧
    (startStep ts m).2.running = 0 ∧
    (∀ m2, (startStep (startStep ts m).2 m2).1 = StartResult.errRunning) := by
  have hnr : m ≠ Mode.modeRepeat := by
    rcases hrr with h | h <;> rw [h] <;> exact fun hc => Mode.noConfusion hc
  rw [startStep_init_other_empty ts m hm hnr hp]
  refine ⟨rfl, rfl, rfl, ?_⟩
  intro m2
  rcases hrr with h | h
  · rw [startStep_eq_of_run (startState ts m []) m2 (by rw [h]; rfl)]
  · rw [startStep_eq_of_race (startState ts m []) m2 (by rw [h]; rfl)]

/-- Witness for C6 (amended) at a concrete empty orchestrator. -/
theorem noTasks_start_poisons_witness :
    (startStep (newTasks ([] : List Nat) : Tasks Nat Nat) Mode.modeRun).1 =
      StartResult.errNoTasks ∧
    (startStep (newTasks ([] : List Nat) : Tasks Nat Nat) Mode.modeRun).2.mode =
      Mode.modeRun ∧
    (startStep (startStep (newTasks ([] : List Nat) : Tasks Nat Nat) Mode.modeRun).2
      Mode.modeRace).1 = StartResult.errRunning := by
  have h := noTasks_start_poisons Nat Nat (newTasks []) Mode.modeRun rfl rfl (Or.inl rfl)
  exact ⟨h.1, h.2.1, h.2.2.2 Mode.modeRace⟩

/-- C7: a start call in any mode other than `Uninitialized` fails without
changing state — `ErrFinished` when the lifetime completed, `ErrRunning`
while a run is live — a launch can only come from `modeInit`, and no
transition (start, report, add) ever returns the state to `modeInit`, so
an orchestrator is successfully started at most once. -/
theorem start_at_most_once (τ ε : Type) (ts : Tasks τ ε) (m : Mode) (e : Option ε)
    (xs : List τ) :
    (ts.mode = Mode.modeDone → startStep ts m = (StartResult.errFinished, ts)) ∧
    ((ts.mode = Mode.modeRun ∨ ts.mode = Mode.modeRace ∨ ts.mode = Mode.modeRepeat) →
      startStep ts m = (StartResult.errRunning, ts)) ∧
    (∀ l, (startStep ts m).1 = StartResult.launched l → ts.mode = Mode.modeInit) ∧
    (ts.mode ≠ Mode.modeInit →
      (startStep ts m).2.mode ≠ Mode.modeInit ∧
      (report ts e).mode ≠ Mode.modeInit ∧
      (add ts xs).1.mode ≠ Mode.modeInit) := by
  refine ⟨fun hd => startStep_eq_of_done ts m hd, ?_, ?_, ?_⟩
  · intro hl
    rcases hl with h | h | h
    · exact startStep_eq_of_run ts m h
    · exact startStep_eq_of_race ts m h
    · exact startStep_eq_of_repeat ts m h
  · intro l hl
    cases hmode : ts.mode
    · rfl
    · rw [startStep_eq_of_run ts m hmode] at hl
      exact StartResult.noConfusion hl
    · rw [startStep_eq_of_race ts m hmode] at hl
      exact StartResult.noConfusion hl
    · rw [startStep_eq_of_repeat ts m hmode] at hl
      exact StartResult.noConfusion hl
    · rw [startStep_eq_of_done ts m hmode] at hl
      exact StartResult.noConfusion hl
  · intro hni
    refine ⟨?_, ?_, ?_⟩
    · cases hmode : ts.mode
      · exact absurd hmode hni
      · rw [startStep_eq_of_run ts m hmode]
        exact hni
      · rw [startStep_eq_of_race ts m hmode]
        exact hni
      · rw [startStep_eq_of_repeat ts m hmode]
        exact hni
      · rw [startStep_eq_of_done ts m hmode]
        exact hni
    · rcases report_mode_or ts e with h | h
      · rw [h]
        exact hni
      · rw [h]
        exact fun hc => Mode.noConfusion hc
    · rw [add_fst_mode ts xs]
      exact hni

/-- Witness for C7 at concrete finished and live orchestrators. -/
theorem start_at_most_once_witness :
    startStep
        ({ mode := Mode.modeDone, pending := [], running := 0, first := false,
           err := some 3, ctxCanceled := true, doneWrites := [some 3] } : Tasks Nat Nat)
        Mode.modeRun =
      (StartResult.errFinished,
        { mode := Mode.modeDone, pending := [], running := 0, first := false,
          err := some 3, ctxCanceled := true, doneWrites := [some 3] }) ∧
    startStep
        ({ mode := Mode.modeRace, pending := [], running := 2, first := true,
           err := none, ctxCanceled := false, doneWrites := [] } : Tasks Nat Nat)
        Mode.modeRun =
      (StartResult.errRunning,
        { mode := Mode.modeRace, pending := [], running := 2, first := true,
          err := none, ctxCanceled := false, doneWrites := [] }) := by
  have h1 := start_at_most_once Nat Nat
    ({ mode := Mode.modeDone, pending := [], running := 0, first := false,
       err := some 3, ctxCanceled := true, doneWrites := [some 3] } : Tasks Nat Nat)
    Mode.modeRun none []
  have h2 := start_at_most_once Nat Nat
    ({ mode := Mode.modeRace, pending := [], running := 2, first := true,
       err := none, ctxCanceled := false, doneWrites := [] } : Tasks Nat Nat)
    Mode.modeRun none []
  exact ⟨h1.1 rfl, h2.2.1 (Or.inr (Or.inl rfl))⟩

/-- C8: with the global flag at its default `false` (catch faults), a task
fault is recovered and delivered to `report` as `ErrPanic` carrying the
payload and the stack snapshot; with the flag `true` the fault keeps
propagating unmodified (payload unchanged); a normal return is delivered
as-is.  In every case the structure carries exactly the one value passed
to the single `report` call of the execution. -/
theorem fault_barrier_spec (ε : Type) (e : Option ε) (p : Nat) (stack : List Nat)
    (flag : Bool) :
    PanicDefault = false ∧
    runTask PanicDefault stack (TaskBehavior.panics p : TaskBehavior ε) =
      ⟨some (RunErr.errPanic p stack), none⟩ ∧
    runTask true stack (TaskBehavior.panics p : TaskBehavior ε) = ⟨none, some p⟩ ∧
    runTask flag stack (TaskBehavior.returns e) = ⟨e.map RunErr.user, none⟩ :=
  ⟨rfl, rfl, rfl, rfl⟩

/-- C9: `Add` in `modeInit` appends the tasks to `pending` in order and
launches nothing; in any other mode it adds `len(tasks)` to the
outstanding count and launches exactly those tasks against the current
derived context; adding 3 then 2 tasks before `Run` launches exactly those
5 tasks; and a report arriving after the lifetime finished (`modeDone`)
only decrements the count — its outcome is discarded. -/
theorem add_spec (τ ε : Type) (ts : Tasks τ ε) (xs a b : List τ) (e : Option ε) :
    (ts.mode = Mode.modeInit →
      add ts xs = ({ ts with pending := ts.pending ++ xs.map TaskItem.user }, [])) ∧
    (ts.mode ≠ Mode.modeInit →
      add ts xs =
        ({ ts with running := ts.running + (xs.length : Int) }, xs.map TaskItem.user) ∧
      ((add ts xs).2).length = xs.length) ∧
    (a ++ b ≠ [] →
      (startStep (add (add (newTasks [] : Tasks τ ε) a).1 b).1 Mode.modeRun).1 =
        StartResult.launched ((a ++ b).map TaskItem.user) ∧
      ((a ++ b).map TaskItem.user).length = a.length + b.length) ∧
    (ts.mode = Mode.modeDone →
      (report ts e).err = ts.err ∧
      (report ts e).doneWrites = ts.doneWrites ∧
      (report ts e).mode = Mode.modeDone ∧
      (report ts e).first = ts.first ∧
      (report ts e).running = ts.running - 1) := by
  refine ⟨?_, ?_, ?_, ?_⟩
  · intro h
    unfold add
    rw [if_pos h]
  · intro h
    unfold add
    rw [if_neg h]
    refine ⟨rfl, ?_⟩
    simp
  · intro hne
    have hp : (add (add (newTasks [] : Tasks τ ε) a).1 b).1 =
        ({ mode := Mode.modeInit, pending := (a ++ b).map TaskItem.user, running := 0,
           first := false, err := none, ctxCanceled := false,
           doneWrites := [] } : Tasks τ ε) := by
      simp [add, newTasks]
    rw [hp]
    have hpne : ((a ++ b).map TaskItem.user : List (TaskItem τ)) ≠ [] := by
      intro hc
      exact hne (List.map_eq_nil_iff.mp hc)
    rw [startStep_init_other_launch _ Mode.modeRun rfl
      (fun hc => Mode.noConfusion hc) hpne]
    exact ⟨rfl, by simp⟩
  · intro hd
    rw [report_eq_done ts e hd]
    exact ⟨rfl, rfl, hd, rfl, rfl⟩

/-- Witness for C9: three then two tasks added before `Run` yields exactly
the five launched tasks, and a post-completion report is discarded. -/
theorem add_spec_witness :
    (startStep
        (add (add (newTasks ([] : List Nat) : Tasks Nat Nat) [0, 1, 2]).1 [3, 4]).1
        Mode.modeRun).1 =
      StartResult.launched
        [TaskItem.user 0, TaskItem.user 1, TaskItem.user 2, TaskItem.user 3,
         TaskItem.user 4] ∧
    (report
        ({ mode := Mode.modeDone, pending := [], running := 0, first := false,
           err := some 3, ctxCanceled := true, doneWrites := [some 3] } : Tasks Nat Nat)
        (some 9)).err = some 3 := by
  have h := add_spec Nat Nat
    ({ mode := Mode.modeDone, pending := [], running := 0, first := false,
       err := some 3, ctxCanceled := true, doneWrites := [some 3] } : Tasks Nat Nat)
    [] [0, 1, 2] [3, 4] (some 9)
  exact ⟨(h.2.2.1 (by decide)).1, (h.2.2.2 rfl).1⟩

/-- C1 (counterexample): starting `Run` with two tasks and reporting a
success first and a failure second, the recorded and delivered result is
the failure, not the first-reported outcome (the success): recording `nil`
is a no-op, so a later failure overwrites the slot. -/
theorem run_first_outcome_cex :
    ([none, some 7] : List (Option Nat)).head? = some none ∧
    (reportAll (startStep (newTasks ([0, 1] : List Nat) : Tasks Nat Nat) Mode.modeRun).2
      ([none, some 7] : List (Option Nat))).err = some 7 ∧
    (reportAll (startStep (newTasks ([0, 1] : List Nat) : Tasks Nat Nat) Mode.modeRun).2
      ([none, some 7] : List (Option Nat))).doneWrites = [some 7] ∧
    ¬((reportAll (startStep (newTasks ([0, 1] : List Nat) : Tasks Nat Nat) Mode.modeRun).2
      ([none, some 7] : List (Option Nat))).err = none) := by
  decide

/-- C1 (amended): in Run (and Repeat) mode `report` records an outcome only
while the result slot is `nil`; since a success is represented by `nil`,
the recorded result — and the outcome `Run` delivers — is the first
*failure* reported chronologically (`nil` if every report succeeds), not
the first outcome; a failing outcome additionally triggers cancellation. -/
theorem run_returns_first_failure (τ ε : Type) (us : List τ) (es : List (Option ε))
    (ts : Tasks τ ε) (e : Option ε) (hne : us ≠ []) (hlen : es.length = us.length) :
    (reportAll (startStep (newTasks us : Tasks τ ε) Mode.modeRun).2 es).err =
      firstFailure es ∧
    (reportAll (startStep (newTasks us : Tasks τ ε) Mode.modeRun).2 es).doneWrites =
      [firstFailure es] ∧
    (reportAll (startStep (newTasks us : Tasks τ ε) Mode.modeRun).2 es).mode =
      Mode.modeDone ∧
    ((ts.mode = Mode.modeRun ∨ ts.mode = Mode.modeRepeat) →
      (report ts e).err = (if ts.err.isNone then e else ts.err) ∧
      (e.isSome → (report ts e).ctxCanceled = true)) := by
  have hpne : (newTasks us : Tasks τ ε).pending ≠ [] := by
    show us.map TaskItem.user ≠ []
    intro hc
    exact hne (List.map_eq_nil_iff.mp hc)
  rw [startStep_init_other_launch (newTasks us : Tasks τ ε) Mode.modeRun rfl
    (fun hc => Mode.noConfusion hc) hpne]
  have hesne : es ≠ [] := by
    intro hc
    rw [hc] at hlen
    exact hne (List.eq_nil_of_length_eq_zero hlen.symm)
  have hr : (startState (newTasks us : Tasks τ ε) Mode.modeRun
      ((newTasks us : Tasks τ ε).pending)).running = (es.length : Int) := by
    show (((newTasks us : Tasks τ ε).pending).length : Int) = (es.length : Int)
    show (((us.map TaskItem.user).length : Nat) : Int) = (es.length : Int)
    rw [List.length_map, hlen]
  obtain ⟨h1, h2, h3⟩ := reportAll_run es
    (startState (newTasks us : Tasks τ ε) Mode.modeRun ((newTasks us : Tasks τ ε).pending))
    rfl hr hesne
  refine ⟨?_, ?_, h3, ?_⟩
  · rw [h1]
    rfl
  · rw [h2]
    rfl
  · intro hmode
    constructor
    · rcases hmode with h | h
      · rw [report_eq_run ts e h, finishCheck_err]
        rfl
      · rw [report_eq_repeat ts e h, finishCheck_err]
        rfl
    · intro hes
      rcases hmode with h | h
      · rw [report_eq_run ts e h, finishCheck_ctxCanceled]
        show (if e.isSome then true else ts.ctxCanceled) = true
        rw [hes]
        rfl
      · rw [report_eq_repeat ts e h, finishCheck_ctxCanceled]
        show (if e.isSome then true else ts.ctxCanceled) = true
        rw [hes]
        rfl

/-- Witness for C1 (amended) with one task reporting one failure. -/
theorem run_returns_first_failure_witness :
    (reportAll (startStep (newTasks ([0] : List Nat) : Tasks Nat Nat) Mode.modeRun).2
      ([some 5] : List (Option Nat))).doneWrites = [some 5] := by
  have h := run_returns_first_failure Nat Nat [0] [some 5]
    (newTasks ([] : List Nat) : Tasks Nat Nat) none (by decide) (by decide)
  exact h.2.1

/-- C3: in Race mode the first report (while `first` is still set) records
its outcome — success or failure — as the result, later reports record
nothing, every Race report triggers cancellation, and the delivered result
is exactly the first reported outcome. -/
theorem race_first_report_decides (τ ε : Type) (us : List τ) (e : Option ε)
    (rest : List (Option ε)) (ts : Tasks τ ε) (x : Option ε)
    (hne : us ≠ []) (hlen : (e :: rest).length = us.length) :
    (reportAll (startStep (newTasks us : Tasks τ ε) Mode.modeRace).2 (e :: rest)).err =
      e ∧
    (reportAll (startStep (newTasks us : Tasks τ ε) Mode.modeRace).2
      (e :: rest)).doneWrites = [e] ∧
    (reportAll (startStep (newTasks us : Tasks τ ε) Mode.modeRace).2 (e :: rest)).mode =
      Mode.modeDone ∧
    (reportAll (startStep (newTasks us : Tasks τ ε) Mode.modeRace).2
      (e :: rest)).ctxCanceled = true ∧
    (ts.mode = Mode.modeRace → (report ts x).ctxCanceled = true) ∧
    (ts.mode = Mode.modeRace → ts.first = false →
      (report ts x).err = ts.err ∧ (report ts x).first = false) := by
  have hpne : (newTasks us : Tasks τ ε).pending ≠ [] := by
    show us.map TaskItem.user ≠ []
    intro hc
    exact hne (List.map_eq_nil_iff.mp hc)
  rw [startStep_init_other_launch (newTasks us : Tasks τ ε) Mode.modeRace rfl
    (fun hc => Mode.noConfusion hc) hpne]
  have hr : (startState (newTasks us : Tasks τ ε) Mode.modeRace
      ((newTasks us : Tasks τ ε).pending)).running = (((e :: rest).length : Nat) : Int) := by
    show (((us.map TaskItem.user).length : Nat) : Int) = (((e :: rest).length : Nat) : Int)
    rw [List.length_map, hlen]
  obtain ⟨h1, h2, h3, h4⟩ := reportAll_race e rest
    (startState (newTasks us : Tasks τ ε) Mode.modeRace ((newTasks us : Tasks τ ε).pending))
    rfl rfl hr
  refine ⟨h1, by rw [h2]; rfl, h3, h4, ?_, ?_⟩
  · intro h
    rw [report_eq_race ts x h, finishCheck_ctxCanceled]
    rfl
  · intro h hf
    constructor
    · rw [report_eq_race ts x h, finishCheck_err]
      show (if ts.first then x else ts.err) = ts.err
      rw [hf]
      rfl
    · rw [report_eq_race ts x h, finishCheck_first, recordRace_first]

/-- Witness for C3 with two tasks whose first report is a success. -/
theorem race_first_report_decides_witness :
    (reportAll (startStep (newTasks ([0, 1] : List Nat) : Tasks Nat Nat) Mode.modeRace).2
      ([none, some 4] : List (Option Nat))).doneWrites = [none] := by
  have h := race_first_report_decides Nat Nat [0, 1] none [some 4]
    (newTasks ([] : List Nat) : Tasks Nat Nat) none (by decide) (by decide)
  exact h.2.1

/-- C2: per step, the `done` channel is written only in a report whose
decremented outstanding count is at zero and whose pre-state mode is not
`modeDone`; once `modeDone`, report sequences never write again; from a
fresh channel at most one value is ever written; and a full lifetime
(`Run`/`Race` with as many reports as tasks, `Repeat` additionally with at
least one failure reported) writes exactly one value. -/
theorem done_written_exactly_once (τ ε : Type) (ts : Tasks τ ε) (e : Option ε)
    (es : List (Option ε)) (us : List τ) (es2 : List (Option ε)) (e2 : Option ε)
    (rest2 : List (Option ε)) :
    ((report ts e).doneWrites = ts.doneWrites ∨
      ((report ts e).doneWrites = ts.doneWrites ++ [(report ts e).err] ∧
        ts.mode ≠ Mode.modeDone ∧
        (report ts e).mode = Mode.modeDone ∧
        ts.running - 1 ≤ 0)) ∧
    (ts.mode = Mode.modeDone →
      (reportAll ts es).doneWrites = ts.doneWrites ∧
      (reportAll ts es).mode = Mode.modeDone) ∧
    (ts.doneWrites = [] → (reportAll ts es).doneWrites.length ≤ 1) ∧
    (us ≠ [] → es2.length = us.length →
      (reportAll (startStep (newTasks us : Tasks τ ε) Mode.modeRun).2
        es2).doneWrites.length = 1) ∧
    (us ≠ [] → (e2 :: rest2).length = us.length →
      (reportAll (startStep (newTasks us : Tasks τ ε) Mode.modeRace).2
        (e2 :: rest2)).doneWrites.length = 1) ∧
    (es2.length = us.length + 1 → (∃ v ∈ es2, v.isSome) →
      (reportAll (startStep (newTasks us : Tasks τ ε) Mode.modeRepeat).2
        es2).doneWrites.length = 1) := by
  refine ⟨?_, ?_, ?_, ?_, ?_, ?_⟩
  · rcases report_write_cases ts e with ⟨hw, _⟩ | ⟨hw, h2, h3, h4, _⟩
    · exact Or.inl hw
    · exact Or.inr ⟨hw, h2, h3, h4⟩
  · intro hd
    obtain ⟨q1, q2, _, _⟩ := reportAll_done es ts hd
    exact ⟨q2, q1⟩
  · intro h0
    rcases reportAll_at_most_once es ts (Or.inl h0) with hres | ⟨hres, _⟩
    · rw [hres]
      simp
    · rw [hres]
  · intro hne hlen
    have hpne : (newTasks us : Tasks τ ε).pending ≠ [] := by
      show us.map TaskItem.user ≠ []
      intro hc
      exact hne (List.map_eq_nil_iff.mp hc)
    rw [startStep_init_other_launch (newTasks us : Tasks τ ε) Mode.modeRun rfl
      (fun hc => Mode.noConfusion hc) hpne]
    have hesne : es2 ≠ [] := by
      intro hc
      rw [hc] at hlen
      exact hne (List.eq_nil_of_length_eq_zero hlen.symm)
    have hr : (startState (newTasks us : Tasks τ ε) Mode.modeRun
        ((newTasks us : Tasks τ ε).pending)).running = (es2.length : Int) := by
      show (((us.map TaskItem.user).length : Nat) : Int) = (es2.length : Int)
      rw [List.length_map, hlen]
    obtain ⟨_, h2, _⟩ := reportAll_run es2
      (startState (newTasks us : Tasks τ ε) Mode.modeRun
        ((newTasks us : Tasks τ ε).pending)) rfl hr hesne
    rw [h2]
    rfl
  · intro hne hlen
    have hpne : (newTasks us : Tasks τ ε).pending ≠ [] := by
      show us.map TaskItem.user ≠ []
      intro hc
      exact hne (List.map_eq_nil_iff.mp hc)
    rw [startStep_init_other_launch (newTasks us : Tasks τ ε) Mode.modeRace rfl
      (fun hc => Mode.noConfusion hc) hpne]
    have hr : (startState (newTasks us : Tasks τ ε) Mode.modeRace
        ((newTasks us : Tasks τ ε).pending)).running =
        (((e2 :: rest2).length : Nat) : Int) := by
      show (((us.map TaskItem.user).length : Nat) : Int) =
        (((e2 :: rest2).length : Nat) : Int)
      rw [List.length_map, hlen]
    obtain ⟨_, h2, _, _⟩ := reportAll_race e2 rest2
      (startState (newTasks us : Tasks τ ε) Mode.modeRace
        ((newTasks us : Tasks τ ε).pending)) rfl rfl hr
    rw [h2]
    rfl
  · intro hlen hex
    rw [startStep_init_repeat (newTasks us : Tasks τ ε) rfl]
    have hesne : es2 ≠ [] := by
      intro hc
      rw [hc] at hlen
      exact Nat.noConfusion hlen
    have hr : (startState (newTasks us : Tasks τ ε) Mode.modeRepeat
        ((newTasks us : Tasks τ ε).pending ++ [TaskItem.waitTask])).running =
        (es2.length : Int) := by
      simp [startState, newTasks, hlen]
    obtain ⟨_, r2, _⟩ := reportAll_repeat es2
      (startState (newTasks us : Tasks τ ε) Mode.modeRepeat
        ((newTasks us : Tasks τ ε).pending ++ [TaskItem.waitTask])) rfl hr hesne
    have hEs : (firstFailure es2).isSome := by
      obtain ⟨v, hv, hvs⟩ := hex
      exact firstFailure_isSome_of_mem es2 v hv hvs
    obtain ⟨hw, _⟩ := r2 hEs
    rw [hw]
    rfl

/-- Witness for C2: a one-task `Run` lifetime and an empty-`Repeat`
lifetime ended by a failing report each write exactly once. -/
theorem done_written_exactly_once_witness :
    (reportAll (startStep (newTasks ([0] : List Nat) : Tasks Nat Nat) Mode.modeRun).2
      ([none] : List (Option Nat))).doneWrites.length = 1 ∧
    (reportAll (startStep (newTasks ([] : List Nat) : Tasks Nat Nat) Mode.modeRepeat).2
      ([some 2] : List (Option Nat))).doneWrites.length = 1 := by
  have h1 := done_written_exactly_once Nat Nat (newTasks ([] : List Nat)) none []
    [0] [none] none []
  have h2 := done_written_exactly_once Nat Nat (newTasks ([] : List Nat)) none []
    [] [some 2] none []
  exact ⟨h1.2.2.2.1 (by decide) (by decide),
    h2.2.2.2.2.2 (by decide) ⟨some 2, by decide, rfl⟩⟩

/-- C4: a Repeat start always launches the pending tasks plus one synthetic
wait task; a Repeat report can close the lifetime only with the count at
zero and a recorded failure, delivering that failure; every value a Repeat
lifetime ever delivers is a failure; and an all-success drain leaves the
orchestration open (`modeRepeat`, nothing delivered, count zero). -/
theorem repeat_requires_failure (τ ε : Type) (ts : Tasks τ ε) (e : Option ε)
    (us : List τ) (es es2 : List (Option ε)) :
    (ts.mode = Mode.modeInit →
      (startStep ts Mode.modeRepeat).1 =
        StartResult.launched (ts.pending ++ [TaskItem.waitTask])) ∧
    (ts.mode = Mode.modeRepeat → (report ts e).mode = Mode.modeDone →
      ((report ts e).err).isSome ∧ ts.running - 1 ≤ 0 ∧
      (report ts e).doneWrites = ts.doneWrites ++ [(report ts e).err]) ∧
    (∀ v ∈ (reportAll (startStep (newTasks us : Tasks τ ε) Mode.modeRepeat).2
        es).doneWrites, v.isSome) ∧
    (es2.length = us.length + 1 → (∀ v ∈ es2, v = none) →
      (reportAll (startStep (newTasks us : Tasks τ ε) Mode.modeRepeat).2
        es2).doneWrites = [] ∧
      (reportAll (startStep (newTasks us : Tasks τ ε) Mode.modeRepeat).2 es2).mode =
        Mode.modeRepeat ∧
      (reportAll (startStep (newTasks us : Tasks τ ε) Mode.modeRepeat).2 es2).running
        = 0) := by
  refine ⟨?_, ?_, ?_, ?_⟩
  · intro hm
    rw [startStep_init_repeat ts hm]
  · intro hm hd
    rcases report_write_cases ts e with ⟨_, hmm⟩ | ⟨hw, _, _, hle, hrep⟩
    · have : ts.mode = Mode.modeDone := hmm.symm.trans hd
      rw [hm] at this
      exact Mode.noConfusion this
    · exact ⟨hrep hm, hle, hw⟩
  · rw [startStep_init_repeat (newTasks us : Tasks τ ε) rfl]
    refine reportAll_repeat_writes_failures es _ (Or.inl rfl) ?_
    intro v hv
    exact absurd hv (List.not_mem_nil v)
  · intro hlen hall
    rw [startStep_init_repeat (newTasks us : Tasks τ ε) rfl]
    have hesne : es2 ≠ [] := by
      intro hc
      rw [hc] at hlen
      exact Nat.noConfusion hlen
    have hr : (startState (newTasks us : Tasks τ ε) Mode.modeRepeat
        ((newTasks us : Tasks τ ε).pending ++ [TaskItem.waitTask])).running =
        (es2.length : Int) := by
      simp [startState, newTasks, hlen]
    obtain ⟨_, _, r3⟩ := reportAll_repeat es2
      (startState (newTasks us : Tasks τ ε) Mode.modeRepeat
        ((newTasks us : Tasks τ ε).pending ++ [TaskItem.waitTask])) rfl hr hesne
    have hE : firstFailure es2 = none := firstFailure_of_all_none es2 hall
    exact r3 hE

/-- Witness for C4: an empty Repeat launches just the wait task, and its
all-success drain (the single `nil` report) leaves it open. -/
theorem repeat_requires_failure_witness :
    (startStep (newTasks ([5] : List Nat) : Tasks Nat Nat) Mode.modeRepeat).1 =
      StartResult.launched [TaskItem.user 5, TaskItem.waitTask] ∧
    (reportAll (startStep (newTasks ([] : List Nat) : Tasks Nat Nat) Mode.modeRepeat).2
      ([none] : List (Option Nat))).doneWrites = [] ∧
    (reportAll (startStep (newTasks ([] : List Nat) : Tasks Nat Nat) Mode.modeRepeat).2
      ([none] : List (Option Nat))).mode = Mode.modeRepeat := by
  have h1 := repeat_requires_failure Nat Nat (newTasks ([5] : List Nat)) none [] [] []
  have h2 := repeat_requires_failure Nat Nat (newTasks ([] : List Nat)) none [] []
    ([none] : List (Option Nat))
  obtain ⟨q1, q2, _⟩ := h2.2.2.2 (by decide) (by decide)
  exact ⟨h1.1 rfl, q1, q2⟩

/-- C10: `report` records a new outcome only while the result slot is `nil`
(Run/Repeat), only while `first` is set (Race), and never once finished;
hence a recorded failure is never changed by later reports, and the
delivered failure is the first failure reported in Run and the first
outcome in Race. -/
theorem failure_result_stable (τ ε : Type) (ts : Tasks τ ε) (e : Option ε)
    (es : List (Option ε)) (x : ε) (us : List τ) (es2 : List (Option ε))
    (e2 : Option ε) (rest2 : List (Option ε)) :
    ((ts.mode = Mode.modeRun ∨ ts.mode = Mode.modeRepeat) → ts.err.isSome →
      (report ts e).err = ts.err) ∧
    (ts.mode = Mode.modeRace → ts.first = false → (report ts e).err = ts.err) ∧
    (ts.mode = Mode.modeDone →
      (report ts e).err = ts.err ∧ (report ts e).doneWrites = ts.doneWrites) ∧
    (ts.err = some x → (ts.first = true → ts.mode ≠ Mode.modeRace) →
      (reportAll ts es).err = some x) ∧
    (us ≠ [] → es2.length = us.length →
      (reportAll (startStep (newTasks us : Tasks τ ε) Mode.modeRun).2 es2).doneWrites =
        [firstFailure es2]) ∧
    (us ≠ [] → (e2 :: rest2).length = us.length →
      (reportAll (startStep (newTasks us : Tasks τ ε) Mode.modeRace).2
        (e2 :: rest2)).doneWrites = [e2]) := by
  refine ⟨?_, ?_, ?_, ?_, ?_, ?_⟩
  · intro hmode hS
    have key : (if ts.err.isNone then e else ts.err) = ts.err := by
      cases hv : ts.err with
      | none =>
          rw [hv] at hS
          exact Bool.noConfusion hS
      | some y => rfl
    rcases hmode with h | h
    · rw [report_eq_run ts e h, finishCheck_err]
      exact key
    · rw [report_eq_repeat ts e h, finishCheck_err]
      exact key
  · intro h hf
    rw [report_eq_race ts e h, finishCheck_err]
    show (if ts.first then e else ts.err) = ts.err
    rw [hf]
    rfl
  · intro hd
    rw [report_eq_done ts e hd]
    exact ⟨rfl, rfl⟩
  · intro hx hfr
    exact reportAll_err_stable es ts x hx hfr
  · intro hne hlen
    have hpne : (newTasks us : Tasks τ ε).pending ≠ [] := by
      show us.map TaskItem.user ≠ []
      intro hc
      exact hne (List.map_eq_nil_iff.mp hc)
    rw [startStep_init_other_launch (newTasks us : Tasks τ ε) Mode.modeRun rfl
      (fun hc => Mode.noConfusion hc) hpne]
    have hesne : es2 ≠ [] := by
      intro hc
      rw [hc] at hlen
      exact hne (List.eq_nil_of_length_eq_zero hlen.symm)
    have hr : (startState (newTasks us : Tasks τ ε) Mode.modeRun
        ((newTasks us : Tasks τ ε).pending)).running = (es2.length : Int) := by
      show (((us.map TaskItem.user).length : Nat) : Int) = (es2.length : Int)
      rw [List.length_map, hlen]
    obtain ⟨_, h2, _⟩ := reportAll_run es2
      (startState (newTasks us : Tasks τ ε) Mode.modeRun
        ((newTasks us : Tasks τ ε).pending)) rfl hr hesne
    rw [h2]
    rfl
  · intro hne hlen
    have hpne : (newTasks us : Tasks τ ε).pending ≠ [] := by
      show us.map TaskItem.user ≠ []
      intro hc
      exact hne (List.map_eq_nil_iff.mp hc)
    rw [startStep_init_other_launch (newTasks us : Tasks τ ε) Mode.modeRace rfl
      (fun hc => Mode.noConfusion hc) hpne]
    have hr : (startState (newTasks us : Tasks τ ε) Mode.modeRace
        ((newTasks us : Tasks τ ε).pending)).running =
        (((e2 :: rest2).length : Nat) : Int) := by
      show (((us.map TaskItem.user).length : Nat) : Int) =
        (((e2 :: rest2).length : Nat) : Int)
      rw [List.length_map, hlen]
    obtain ⟨_, h2, _, _⟩ := reportAll_race e2 rest2
      (startState (newTasks us : Tasks τ ε) Mode.modeRace
        ((newTasks us : Tasks τ ε).pending)) rfl rfl hr
    rw [h2]
    rfl

/-- Witness for C10: a recorded failure in a live Run state survives two
further reports, successes and failures alike. -/
theorem failure_result_stable_witness :
    (reportAll
      ({ mode := Mode.modeRun, pending := [], running := 2, first := true,
         err := some 3, ctxCanceled := true, doneWrites := [] } : Tasks Nat Nat)
      ([none, some 8] : List (Option Nat))).err = some 3 := by
  have h := failure_result_stable Nat Nat
    ({ mode := Mode.modeRun, pending := [], running := 2, first := true,
       err := some 3, ctxCanceled := true, doneWrites := [] } : Tasks Nat Nat)
    none ([none, some 8] : List (Option Nat)) 3 [] [] none []
  exact h.2.2.2.1 rfl (fun _ hc => Mode.noConfusion hc)

end Invoker
